import Mathlib

/-!
Verification of the katomik atomic-apply engine (Go) against its
natural-language specification.

The Go program (package `apply` in the repository, plus the `cmd` CLI
variant) performs a transactional `kubectl apply`: it builds a plan with
per-resource backups, applies every manifest with a server-side-apply
patch, waits for convergence, and rolls everything back on failure.

Shallow embedding conventions used throughout this file:

* Go `map[string]interface{}` values (the payload of an
  `unstructured.Unstructured`) are modelled as association lists
  `List (String × Val)`; Go `delete(m, k)` becomes a key filter.
* All remote/cluster interactions (`RESTMapping`, `Get`, `Patch`,
  `Update`, `Delete`, JSON marshal/unmarshal, status polling) are
  oracles collected in an `Env` record; the theorems quantify over the
  oracle, so they hold for every possible remote behaviour.
* The stateful discovery cache of the REST mapper is abstracted by a
  reset counter: `restMapping r gvk` is the answer the mapper gives
  after `r` cache resets; `mapper.Reset()` increments the counter.
* Each modelled function additionally returns the ordered trace of
  remote calls it issued (`List Call`), so ordering and
  "no mutation happened" claims are first-class statements.
* `os.Exit(1)` (reached by `rollback`/`rollbackAndExit` after a fully
  successful rollback) cannot be a returned value in Go; it is modelled
  as the terminal outcome `RollbackOutcome.completedExit`
  (respectively `RunOutcome.exited 1` at the run level).
* Fallible Go calls returning `error` are modelled with
  `Except String _`.
-/

namespace Katomik

/-- A JSON-like dynamic value, the model of a Go `interface{}` stored in
an `unstructured` object. Only the constructors observable by the
program are needed. -/
inductive Val where
  | vstr : String → Val
  | vnum : Int → Val
  | vbool : Bool → Val
  | vnull : Val
  | vmap : List (String × Val) → Val
deriving Inhabited

/-- The model of a Go `map[string]interface{}`: an association list. -/
abbrev FieldMap := List (String × Val)

/-- Model of Go `delete(m, k)`: drop every binding of key `k`. -/
def mdelete (m : FieldMap) (k : String) : FieldMap :=
  m.filter (fun kv => kv.1 != k)

/-- Model of a Go map lookup `m[k]`. -/
def mlookup (m : FieldMap) (k : String) : Option Val :=
  (m.find? (fun kv => kv.1 == k)).map (·.2)

/-- The volatile metadata keys deleted by `stripMeta`, in source order. -/
def volatileMetaKeys : List String :=
  ["managedFields", "resourceVersion", "uid", "creationTimestamp"]

/-- The inner loop of `stripMeta`: `for _, k := range [...]string{...} {
delete(m, k) }` applied to the metadata map. -/
def stripMetadataKeys (m : FieldMap) : FieldMap :=
  volatileMetaKeys.foldl mdelete m

/-- Per-entry effect of `stripMeta` on the top-level map: the entry
bound to `"metadata"` has the volatile keys removed from its map value
(the in-place mutation of the inner Go map), every other entry is kept
unchanged. -/
def stripMetaEntry (kv : String × Val) : String × Val :=
  if kv.1 == "metadata" then
    match kv.2 with
    | Val.vmap m => (kv.1, Val.vmap (stripMetadataKeys m))
    | v => (kv.1, v)
  else kv

/-- Embedding of `stripMeta` (`cmd/apply.go` and package `apply`):
`delete(o, "status")`, then, when `o["metadata"]` is a map, delete the
volatile keys inside it. -/
def stripMeta (o : FieldMap) : FieldMap :=
  (mdelete o "status").map stripMetaEntry

/-- Embedding of `unstructured.GetResourceVersion()`: the nested string
at `metadata.resourceVersion`, or `""` when absent or not a string. -/
def getResourceVersion (o : FieldMap) : String :=
  match mlookup o "metadata" with
  | some (Val.vmap m) =>
    match mlookup m "resourceVersion" with
    | some (Val.vstr s) => s
    | _ => ""
  | _ => ""

/-- The identity-level view of a desired object (`*unstructured.Unstructured`)
that the planning and apply control flow inspects: its group-version-kind
(abstracted to a token), its name, and its namespace (`""` when unset on
the manifest). -/
structure KObj where
  gvk : String
  name : String
  ns : String
deriving DecidableEq, Repr, Inhabited

/-- Embedding of the Go `applyItem` struct: the desired object, the
bound resource endpoint (`dr`, split into the resolved mapping token and
the namespace it was scoped to, `none` for cluster scope), the
existence flag, the JSON backup (`none` when the object did not exist),
and the captured `resourceVersion`. -/
structure ApplyItem where
  obj : KObj
  drm : String
  drNs : Option String
  existed : Bool
  backup : Option String
  rv : String
deriving DecidableEq, Repr, Inhabited

/-- One remote interaction issued by the engine. `mapping` and `reset`
are discovery-cache operations of the REST mapper, `get` is the
read-only existence probe, and `patch` (server-side apply), `update`
(full overwrite) and `delete` are the mutating calls. -/
inductive Call where
  | mapping (resets : Nat) (gvk : String)
  | reset
  | get (m : String) (ns : Option String) (name : String)
  | patch (m : String) (ns : Option String) (name : String) (payload : String)
  | update (m : String) (ns : Option String) (payload : FieldMap)
  | delete (m : String) (ns : Option String) (name : String)

/-- Whether a call mutates the cluster (`Patch`, `Update` or `Delete`). -/
def Call.isMutation : Call → Bool
  | .patch _ _ _ _ => true
  | .update _ _ _ => true
  | .delete _ _ _ => true
  | _ => false

/-- The oracle environment: every collaborator the engine talks to.
`restMapping r gvk` is the mapper's answer after `r` cache resets;
`getLive m ns name` is `dr.Get`; `marshalMap`/`marshalObj`/`unmarshal`
model `json.Marshal` of a field map, `json.Marshal` of a desired
object, and `UnmarshalJSON` of a backup; `patch`/`update`/`delete` are
`dr.Patch`/`dr.Update`/`dr.Delete`; `cfgNamespace` is
`ConfigFlags.Namespace` (a nil-able string pointer); `idOf` is
`object.RuntimeToObjMeta`; `waitOutcome` is the aggregate result of the
status-polling stage for a non-empty identity list. -/
structure Env where
  restMapping : Nat → String → Except String String
  scopeNamespaced : String → Bool
  getLive : String → Option String → String → Except String FieldMap
  marshalMap : FieldMap → Except String String
  marshalObj : KObj → Except String String
  patch : String → Option String → String → String → Except String Unit
  unmarshal : String → Except String FieldMap
  update : String → Option String → FieldMap → Except String Unit
  delete : String → Option String → String → Except String Unit
  cfgNamespace : Option String
  idOf : KObj → Except String String
  waitOutcome : List String → Except String Unit

/-- Namespace fallback of `prepareApplyPlan` (package `apply`):
`ns := "default"; if cfg != nil && *cfg != "" { ns = *cfg }`, applied
only when the manifest namespace is empty. -/
def nsChoicePkg (explicitNs : String) (cfg : Option String) : String :=
  if explicitNs == "" then
    match cfg with
    | some s => if s == "" then "default" else s
    | none => "default"
  else explicitNs

/-- Namespace fallback of `runApply` (`cmd/apply.go`):
`var ns string; if cfg != nil { ns = *cfg; if ns == "" { ns = "default" } }`,
applied only when the manifest namespace is empty. Note the empty-string
result when the config namespace pointer is nil. -/
def nsChoiceCmd (explicitNs : String) (cfg : Option String) : String :=
  if explicitNs == "" then
    match cfg with
    | some s => if s == "" then "default" else s
    | none => ""
  else explicitNs

/-- The namespace precedence exactly as the specification words it:
an explicit manifest namespace wins; otherwise a caller-supplied
(present and non-empty) default namespace; otherwise the literal
`"default"`. Written from the spec for refinement comparison with the
two source variants above. -/
def specChooseNamespace (explicitNs : String) (cfg : Option String) : String :=
  if explicitNs == "" then
    match cfg with
    | some s => if s == "" then "default" else s
    | none => "default"
  else explicitNs

/-- Embedding of the GVK-resolution step of `prepareApplyPlan`:
`mapper.RESTMapping(...)`; on error `mapper.Reset()` and one retry; a
second error is wrapped as `could not map GVK ...`. Returns the result,
the new reset counter, and the discovery calls issued. -/
def resolveWithRetry (env : Env) (resets : Nat) (gvk : String) :
    Except String String × Nat × List Call :=
  match env.restMapping resets gvk with
  | .ok m => (.ok m, resets, [Call.mapping resets gvk])
  | .error _ =>
    match env.restMapping (resets + 1) gvk with
    | .ok m =>
      (.ok m, resets + 1,
       [Call.mapping resets gvk, Call.reset, Call.mapping (resets + 1) gvk])
    | .error e =>
      (.error ("could not map GVK " ++ gvk ++ ": " ++ e), resets + 1,
       [Call.mapping resets gvk, Call.reset, Call.mapping (resets + 1) gvk])

/-- Embedding of one iteration of the `prepareApplyPlan` loop: resolve
the mapping (with one reset-and-retry), scope the endpoint (writing the
chosen namespace back onto the object when the resource is namespaced
and the manifest namespace is empty), probe existence with `Get`, and
on success capture `resourceVersion` and the stripped, serialized
backup. A `Get` failure is treated as "absent", not as fatal. -/
def planDoc (env : Env) (resets : Nat) (u : KObj) :
    Except String ApplyItem × Nat × List Call :=
  match resolveWithRetry env resets u.gvk with
  | (.error e, r, tr) => (.error e, r, tr)
  | (.ok m, r, tr) =>
    let sc : Option String × KObj :=
      if env.scopeNamespaced m then
        let ns := nsChoicePkg u.ns env.cfgNamespace
        (some ns, { u with ns := ns })
      else (none, u)
    match env.getLive m sc.1 sc.2.name with
    | .error _ =>
      (.ok { obj := sc.2, drm := m, drNs := sc.1, existed := false,
             backup := none, rv := "" },
       r, tr ++ [Call.get m sc.1 sc.2.name])
    | .ok cur =>
      match env.marshalMap (stripMeta cur) with
      | .error e => (.error e, r, tr ++ [Call.get m sc.1 sc.2.name])
      | .ok b =>
        (.ok { obj := sc.2, drm := m, drNs := sc.1, existed := true,
               backup := some b, rv := getResourceVersion cur },
         r, tr ++ [Call.get m sc.1 sc.2.name])

/-- The `prepareApplyPlan` loop over all documents, threading the
mapper's reset counter and accumulating the call trace. Any per-item
fatal error (double mapping failure, backup serialization failure)
aborts the whole plan. -/
def prepareApplyPlanAux (env : Env) (resets : Nat) :
    List KObj → Except String (List ApplyItem) × Nat × List Call
  | [] => (.ok [], resets, [])
  | u :: rest =>
    match planDoc env resets u with
    | (.error e, r, tr) => (.error e, r, tr)
    | (.ok it, r, tr) =>
      match prepareApplyPlanAux env r rest with
      | (.error e, r2, tr2) => (.error e, r2, tr ++ tr2)
      | (.ok items, r2, tr2) => (.ok (it :: items), r2, tr ++ tr2)

/-- Embedding of `prepareApplyPlan`: plan the documents in order,
starting from a fresh mapper cache. -/
def prepareApplyPlan (env : Env) (docs : List KObj) :
    Except String (List ApplyItem) × List Call :=
  ((prepareApplyPlanAux env 0 docs).1, (prepareApplyPlanAux env 0 docs).2.2)

/-- Embedding of one iteration of the `applyPlanned` loop:
`json.Marshal(it.obj)` then `it.dr.Patch(..., ApplyPatchType, ...)`.
Returns the step result and the mutating calls issued. -/
def applyStep (env : Env) (it : ApplyItem) : Except String Unit × List Call :=
  match env.marshalObj it.obj with
  | .error e => (.error e, [])
  | .ok j =>
    match env.patch it.drm it.drNs it.obj.name j with
    | .error e => (.error e, [Call.patch it.drm it.drNs it.obj.name j])
    | .ok _ => (.ok (), [Call.patch it.drm it.drNs it.obj.name j])

/-- Terminal outcome of `rollback`/`rollbackAndExit`: either the
rollback ran to completion, in which case the Go code prints
`rollback complete` and calls `os.Exit(1)` (the process terminates), or
some restore/delete step failed and that error is returned. -/
inductive RollbackOutcome where
  | completedExit
  | failed (e : String)
deriving DecidableEq, Repr

/-- Embedding of one iteration of the `rollback` loop: for an item that
existed, `UnmarshalJSON(it.backup)` followed by a full-overwrite
`dr.Update`; otherwise `dr.Delete` by the object's name. -/
def rollbackStep (env : Env) (it : ApplyItem) : Except String Unit × List Call :=
  if it.existed then
    match env.unmarshal (it.backup.getD "") with
    | .error e => (.error e, [])
    | .ok u =>
      match env.update it.drm it.drNs u with
      | .error e => (.error e, [Call.update it.drm it.drNs u])
      | .ok _ => (.ok (), [Call.update it.drm it.drNs u])
  else
    match env.delete it.drm it.drNs it.obj.name with
    | .error e => (.error e, [Call.delete it.drm it.drNs it.obj.name])
    | .ok _ => (.ok (), [Call.delete it.drm it.drNs it.obj.name])

/-- Embedding of `rollback`/`rollbackAndExit`: iterate the plan in plan
order; the first failing step aborts with that error; full completion
ends in `os.Exit(1)`, modelled as `completedExit`. -/
def rollbackSteps (env : Env) : List ApplyItem → RollbackOutcome × List Call
  | [] => (.completedExit, [])
  | it :: rest =>
    match rollbackStep env it with
    | (.error e, c) => (.failed e, c)
    | (.ok _, c) =>
      ((rollbackSteps env rest).1, c ++ (rollbackSteps env rest).2)

/-- The single remote call a fully successful rollback issues for one
plan item: a full-overwrite `Update` carrying the deserialized backup
when the item existed, a `Delete` by name otherwise. -/
def restoreCall (env : Env) (it : ApplyItem) : Call :=
  if it.existed then
    Call.update it.drm it.drNs ((env.unmarshal (it.backup.getD "")).toOption.getD [])
  else
    Call.delete it.drm it.drNs it.obj.name

/-- The single `Patch` call a successful apply step issues for one
plan item. -/
def patchCallOf (env : Env) (it : ApplyItem) : Call :=
  Call.patch it.drm it.drNs it.obj.name ((env.marshalObj it.obj).toOption.getD "")

/-- Embedding of the `applyPlanned` loop body: apply items one by one;
on the first failure, run `rollback` over `full` (the *entire* plan,
captured before the loop started) and return the rollback's outcome —
the Go code returns `rollback(plan)`, not the triggering error. -/
def applyLoop (env : Env) (full : List ApplyItem) :
    List ApplyItem → Option RollbackOutcome × List Call
  | [] => (none, [])
  | it :: rest =>
    match applyStep env it with
    | (.error _, c) =>
      (some (rollbackSteps env full).1, c ++ (rollbackSteps env full).2)
    | (.ok _, c) =>
      ((applyLoop env full rest).1, c ++ (applyLoop env full rest).2)

/-- Embedding of `applyPlanned`: the apply loop over the whole plan,
with the whole plan as rollback scope. `none` means every item was
applied; `some ro` means a failure occurred and `ro` is the rollback's
outcome (which the Go code returns / exits with). -/
def applyPlanned (env : Env) (plan : List ApplyItem) :
    Option RollbackOutcome × List Call :=
  applyLoop env plan plan

/-- Result of the wait stage on the non-error path: either there was
nothing to track (the `✓ no trackable resources` early return) or every
tracked resource converged. -/
inductive WaitOutcome where
  | noTrackable
  | converged
deriving DecidableEq, Repr

/-- Embedding of the control flow of `waitStatus`: derive the identity
list from the plan (`RuntimeToObjMeta` failures abort), succeed
immediately when it is empty, otherwise defer to the polling stage's
outcome. -/
def waitStatusModel (env : Env) (plan : List ApplyItem) : Except String WaitOutcome :=
  match (plan.map (·.obj)).mapM env.idOf with
  | .error e => .error e
  | .ok ids =>
    if ids.isEmpty then .ok .noTrackable
    else
      match env.waitOutcome ids with
      | .error e => .error e
      | .ok _ => .ok .converged

/-- Terminal outcome of the whole run (`RunApply`): success (with the
wait stage's outcome), process termination via `os.Exit`, or a returned
error. -/
inductive RunOutcome where
  | success (w : WaitOutcome)
  | exited (code : Nat)
  | failure (e : String)
deriving DecidableEq, Repr

/-- How a rollback outcome surfaces at the run level: a completed
rollback terminates the process with exit code 1, a failed rollback is
returned as the run's error. -/
def rollbackRunOutcome : RollbackOutcome → RunOutcome
  | .completedExit => .exited 1
  | .failed e => .failure e

/-- Embedding of `readManifests`: a decoded YAML/JSON document stream.
`Except.error` is a decode failure (fails the whole read),
`.ok none` is an empty/separator-only document (dropped, the
`len(obj.Object) > 0` guard), `.ok (some u)` is a kept document. -/
def readManifests : List (Except String (Option KObj)) → Except String (List KObj)
  | [] => .ok []
  | .error e :: _ => .error e
  | .ok none :: rest => readManifests rest
  | .ok (some u) :: rest =>
    match readManifests rest with
    | .error e => .error e
    | .ok us => .ok (u :: us)

/-- Embedding of the orchestration in `RunApply`: read manifests, build
the plan, apply (which itself rolls back and reports the rollback
outcome on failure), then wait; a wait-stage error triggers rollback of
the whole plan. -/
def runApplyModel (env : Env) (docs : List (Except String (Option KObj))) :
    RunOutcome × List Call :=
  match readManifests docs with
  | .error e => (.failure e, [])
  | .ok us =>
    match prepareApplyPlan env us with
    | (.error e, tr) => (.failure e, tr)
    | (.ok plan, tr) =>
      match applyPlanned env plan with
      | (some ro, tr2) => (rollbackRunOutcome ro, tr ++ tr2)
      | (none, tr2) =>
        match waitStatusModel env plan with
        | .ok w => (.success w, tr ++ tr2)
        | .error _ =>
          (rollbackRunOutcome (rollbackSteps env plan).1,
           tr ++ tr2 ++ (rollbackSteps env plan).2)

/-- The per-resource convergence states of the kstatus library. -/
inductive KStatus where
  | current
  | inProgress
  | terminating
  | notFound
  | failedStatus
  | unknown
deriving DecidableEq, Repr

/-- One component of the joined error built by `waitStatus` when the
context deadline expires: a `resource not ready: ID (STATUS)` fact, or
the context's own error appended last. -/
inductive WaitErrPart where
  | notReady (id : String) (s : KStatus)
  | ctxErr (e : String)
deriving DecidableEq, Repr

/-- Embedding of the deadline branch of `waitStatus` (step 5): for every
tracked identity whose recorded status exists and is not `Current`,
append a not-ready fact; then append the context error and join. -/
def waitDeadlineError (resources : List String) (st : String → Option KStatus)
    (ctxE : String) : List WaitErrPart :=
  (resources.filterMap (fun id =>
    match st id with
    | some s =>
      if s == KStatus.current then none else some (WaitErrPart.notReady id s)
    | none => none)) ++ [WaitErrPart.ctxErr ctxE]

/-- Per-item specification relating an input document to its plan item:
identity preserved; when the live lookup failed the item is marked
non-existing with no backup; when it succeeded the item is marked as
existing, the concurrency token is the live object's pre-strip
`resourceVersion`, and the backup is the serialization of the stripped
live object. -/
def planItemMatches (env : Env) (u : KObj) (it : ApplyItem) : Prop :=
  it.obj.name = u.name ∧ it.obj.gvk = u.gvk ∧
  (match env.getLive it.drm it.drNs u.name with
   | .error _ => it.existed = false ∧ it.backup = none ∧ it.rv = ""
   | .ok cur =>
     it.existed = true ∧ it.rv = getResourceVersion cur ∧
     it.backup = (env.marshalMap (stripMeta cur)).toOption)

/-! ### Concrete instances used by counterexamples and witnesses -/

/-- A live cluster object used by concrete runs: carries metadata with a
`resourceVersion`, a spec and a status block. -/
def liveA : FieldMap :=
  [("metadata", Val.vmap [("resourceVersion", Val.vstr "42"), ("uid", Val.vstr "u-1"),
    ("name", Val.vstr "a")]),
   ("spec", Val.vstr "original"),
   ("status", Val.vstr "Ready")]

/-- A desired object without an explicit namespace. -/
def objA : KObj := { gvk := "apps/v1.Deployment", name := "a", ns := "" }

/-- A desired object with an explicit namespace. -/
def objB : KObj := { gvk := "v1.ConfigMap", name := "b", ns := "ns1" }

/-- A fully cooperative environment: resolution always succeeds, only
the object named `a` exists live, and every remote call succeeds. -/
def envW : Env where
  restMapping := fun _ _ => .ok "rm"
  scopeNamespaced := fun _ => true
  getLive := fun _ _ name => if name == "a" then .ok liveA else .error "not found"
  marshalMap := fun _ => .ok "BK"
  marshalObj := fun o => .ok ("J-" ++ o.name)
  patch := fun _ _ _ _ => .ok ()
  unmarshal := fun _ => .ok [("spec", Val.vstr "original")]
  update := fun _ _ _ => .ok ()
  delete := fun _ _ _ => .ok ()
  cfgNamespace := some ""
  idOf := fun o => .ok o.name
  waitOutcome := fun _ => .ok ()

/-- The plan item `envW` builds for `objA`: it existed, so it carries
the backup and the captured `resourceVersion`. -/
def itemE : ApplyItem :=
  { obj := { objA with ns := "default" }, drm := "rm", drNs := some "default",
    existed := true, backup := some "BK", rv := "42" }

/-- The plan item `envW` builds for `objB`: the live lookup failed, so
it is marked as newly created. -/
def itemN : ApplyItem :=
  { obj := objB, drm := "rm", drNs := some "ns1", existed := false,
    backup := none, rv := "" }

/-- The plan item built for `objA` when the live lookup fails. -/
def itemA0 : ApplyItem :=
  { obj := { objA with ns := "default" }, drm := "rm", drNs := some "default",
    existed := false, backup := none, rv := "" }

/-- Environment for the C3 witness: rollback's delete step is denied. -/
def envRB3 : Env := { envW with delete := fun _ _ _ => .error "delete denied" }

/-- Environment for the C1 counterexample: nothing exists live, the
apply patch is rejected, and the rollback delete also fails — with a
different error than the patch. -/
def envC1 : Env :=
  { envW with
    getLive := fun _ _ _ => .error "not found"
    patch := fun _ _ _ _ => .error "patch rejected"
    delete := fun _ _ _ => .error "delete refused" }

/-- Environment for the C8 counterexample: nothing exists live, the
apply patch is rejected, and the rollback succeeds completely. -/
def envC8 : Env :=
  { envW with
    getLive := fun _ _ _ => .error "not found"
    patch := fun _ _ _ _ => .error "admission denied" }

/-- Environment for the C5 witness: kind resolution always fails, also
after the cache reset. -/
def envM : Env := { envW with restMapping := fun _ _ => .error "no matches" }

/-- A one-document manifest stream. -/
def docs1 : List (Except String (Option KObj)) := [Except.ok (some objA)]

/-- A two-document manifest stream. -/
def docsW : List KObj := [objA, objB]

/-- The plan `envW` builds for `docsW`. -/
def planW : List ApplyItem := [itemE, itemN]

/-- The planning trace `envW` produces for `docsW`. -/
def trW : List Call :=
  [Call.mapping 0 objA.gvk, Call.get "rm" (some "default") "a",
   Call.mapping 0 objB.gvk, Call.get "rm" (some "ns1") "b"]

/-- A manifest stream consisting only of empty/separator documents. -/
def docsE : List (Except String (Option KObj)) := [Except.ok none, Except.ok none]

/-- A concrete status table for the C6 witness. -/
def stW : String → Option KStatus := fun id =>
  if id == "a" then some .current
  else if id == "b" then some .inProgress
  else if id == "c" then some .unknown
  else none

/-! ### Helper lemmas about the field-stripping operation -/

theorem foldl_mdelete_eq_filter (ks : List String) (m : FieldMap) :
    ks.foldl mdelete m = m.filter (fun kv => !(ks.contains kv.1)) := by
  induction ks generalizing m with
  | nil => simp
  | cons k ks ih =>
    simp only [List.foldl_cons, ih, mdelete, List.filter_filter]
    apply List.filter_congr
    intro kv _
    simp only [List.contains_cons]
    cases hk : kv.1 == k <;> cases hc : List.contains ks kv.1 <;>
      simp [hk, hc, bne]

theorem stripMetadataKeys_eq_filter (m : FieldMap) :
    stripMetadataKeys m = m.filter (fun kv => !(volatileMetaKeys.contains kv.1)) :=
  foldl_mdelete_eq_filter volatileMetaKeys m

theorem stripMetadataKeys_idem (m : FieldMap) :
    stripMetadataKeys (stripMetadataKeys m) = stripMetadataKeys m := by
  simp only [stripMetadataKeys_eq_filter, List.filter_filter]
  apply List.filter_congr
  intro kv _
  cases hc : List.contains volatileMetaKeys kv.1 <;> simp [hc]

theorem stripMetaEntry_fst (kv : String × Val) : (stripMetaEntry kv).1 = kv.1 := by
  rcases kv with ⟨k, v⟩
  unfold stripMetaEntry
  cases hk : k == "metadata" <;> cases v <;> simp [hk]

theorem stripMetaEntry_idem (kv : String × Val) :
    stripMetaEntry (stripMetaEntry kv) = stripMetaEntry kv := by
  rcases kv with ⟨k, v⟩
  unfold stripMetaEntry
  cases hk : k == "metadata" <;> cases v <;>
    simp [hk, stripMetadataKeys_idem]

theorem mdelete_map_stripMetaEntry (l : FieldMap) (k : String) :
    mdelete (l.map stripMetaEntry) k = (mdelete l k).map stripMetaEntry := by
  unfold mdelete
  rw [List.filter_map]
  congr 1
  apply List.filter_congr
  intro kv _
  simp [Function.comp, stripMetaEntry_fst]

theorem mdelete_idem (m : FieldMap) (k : String) :
    mdelete (mdelete m k) k = mdelete m k := by
  unfold mdelete
  rw [List.filter_filter]
  apply List.filter_congr
  intro kv _
  cases hk : kv.1 != k <;> simp [hk]

/-- C10: the backup field-stripping operation is idempotent — applying
`stripMeta` twice to any string-keyed object map yields exactly the
same map as applying it once. -/
theorem stripMeta_idempotent (o : FieldMap) :
    stripMeta (stripMeta o) = stripMeta o := by
  unfold stripMeta
  rw [mdelete_map_stripMetaEntry, mdelete_idem, List.map_map]
  apply List.map_congr_left
  intro kv _
  exact stripMetaEntry_idem kv

/-! ### Helper lemmas about the apply and rollback loops -/

theorem applyStep_ok_calls (env : Env) (it : ApplyItem)
    (h : (applyStep env it).1 = .ok ()) :
    (applyStep env it).2 = [patchCallOf env it] := by
  cases hm : env.marshalObj it.obj with
  | error e =>
    have hs : applyStep env it = (Except.error e, []) := by
      simp only [applyStep, hm]
    rw [hs] at h
    exact absurd h (by simp)
  | ok j =>
    cases hp : env.patch it.drm it.drNs it.obj.name j with
    | error e =>
      have hs : applyStep env it =
          (Except.error e, [Call.patch it.drm it.drNs it.obj.name j]) := by
        simp only [applyStep, hm, hp]
      rw [hs] at h
      exact absurd h (by simp)
    | ok u =>
      have hs : applyStep env it =
          (Except.ok (), [Call.patch it.drm it.drNs it.obj.name j]) := by
        simp only [applyStep, hm, hp]
      rw [hs]
      simp [patchCallOf, hm]
      rfl

theorem rollbackStep_ok_calls (env : Env) (it : ApplyItem)
    (h : (rollbackStep env it).1 = .ok ()) :
    (rollbackStep env it).2 = [restoreCall env it] := by
  cases hex : it.existed with
  | true =>
    cases hu : env.unmarshal (it.backup.getD "") with
    | error e =>
      have hs : rollbackStep env it = (Except.error e, []) := by
        simp only [rollbackStep, hex, hu, if_true]
      rw [hs] at h
      exact absurd h (by simp)
    | ok u =>
      cases hup : env.update it.drm it.drNs u with
      | error e =>
        have hs : rollbackStep env it =
            (Except.error e, [Call.update it.drm it.drNs u]) := by
          simp only [rollbackStep, hex, hu, hup, if_true]
        rw [hs] at h
        exact absurd h (by simp)
      | ok v =>
        have hs : rollbackStep env it =
            (Except.ok (), [Call.update it.drm it.drNs u]) := by
          simp only [rollbackStep, hex, hu, hup, if_true]
        rw [hs]
        simp [restoreCall, hex, hu]
        rfl
  | false =>
    cases hd : env.delete it.drm it.drNs it.obj.name with
    | error e =>
      have hs : rollbackStep env it =
          (Except.error e, [Call.delete it.drm it.drNs it.obj.name]) := by
        simp only [rollbackStep, hex, hd, Bool.false_eq_true, if_false]
      rw [hs] at h
      exact absurd h (by simp)
    | ok v =>
      have hs : rollbackStep env it =
          (Except.ok (), [Call.delete it.drm it.drNs it.obj.name]) := by
        simp only [rollbackStep, hex, hd, Bool.false_eq_true, if_false]
      rw [hs]
      simp [restoreCall, hex]

theorem applyLoop_failure (env : Env) (full : List ApplyItem)
    (pre post : List ApplyItem) (it : ApplyItem) (e : String)
    (hpre : ∀ j ∈ pre, (applyStep env j).1 = .ok ())
    (hfail : (applyStep env it).1 = .error e) :
    applyLoop env full (pre ++ it :: post) =
      (some (rollbackSteps env full).1,
       pre.map (patchCallOf env) ++ (applyStep env it).2 ++
         (rollbackSteps env full).2) := by
  induction pre with
  | nil =>
    have hpair : applyStep env it = (Except.error e, (applyStep env it).2) := by
      rw [← hfail]
    simp only [List.nil_append, List.map_nil, applyLoop]
    rw [hpair]
  | cons j pre ih =>
    have hj := hpre j (List.mem_cons_self j pre)
    have hpair : applyStep env j = (Except.ok (), (applyStep env j).2) := by
      rw [← hj]
    have ih' := ih (fun x hx => hpre x (List.mem_cons_of_mem _ hx))
    simp only [List.cons_append, applyLoop, List.append_eq]
    rw [hpair]
    simp only [ih', applyStep_ok_calls env j hj, List.map_cons, List.cons_append,
      List.append_assoc, List.nil_append]

/-- C2: rollback visits the plan items in exactly the plan (apply)
order, not reversed, and issues for each item exactly one call: a
full-overwrite update carrying the deserialized backup when the item
existed before the run, a delete by the resource's name otherwise.
Stated for any environment in which every restore step succeeds; the
resulting process exit (`completedExit`) is the Go `os.Exit(1)` after
`rollback complete`. -/
theorem rollback_same_order_and_actions (env : Env) (plan : List ApplyItem)
    (h : ∀ it ∈ plan, (rollbackStep env it).1 = .ok ()) :
    rollbackSteps env plan = (.completedExit, plan.map (restoreCall env)) := by
  induction plan with
  | nil => rfl
  | cons it rest ih =>
    have h1 := h it (List.mem_cons_self it rest)
    have hpair : rollbackStep env it = (Except.ok (), (rollbackStep env it).2) := by
      rw [← h1]
    have ih' := ih (fun x hx => h x (List.mem_cons_of_mem _ hx))
    simp only [rollbackSteps]
    rw [hpair]
    simp only [ih', rollbackStep_ok_calls env it h1, List.map_cons, List.cons_append,
      List.nil_append]

/-- C3: the first failing restore/delete step during rollback aborts the
iteration immediately: the items before it each contributed exactly
their restore call, the failing step's error is returned unchanged to
the caller (the outcome is `failed e`, never a silent success), no
retry happens, and the items after it are never touched. -/
theorem rollback_first_failure_is_fatal (env : Env) (pre post : List ApplyItem)
    (it : ApplyItem) (e : String)
    (hpre : ∀ j ∈ pre, (rollbackStep env j).1 = .ok ())
    (hfail : (rollbackStep env it).1 = .error e) :
    rollbackSteps env (pre ++ it :: post) =
      (.failed e, pre.map (restoreCall env) ++ (rollbackStep env it).2) := by
  induction pre with
  | nil =>
    have hpair : rollbackStep env it = (Except.error e, (rollbackStep env it).2) := by
      rw [← hfail]
    simp only [List.nil_append, List.map_nil, rollbackSteps]
    rw [hpair]
  | cons j pre ih =>
    have hj := hpre j (List.mem_cons_self j pre)
    have hpair : rollbackStep env j = (Except.ok (), (rollbackStep env j).2) := by
      rw [← hj]
    have ih' := ih (fun x hx => hpre x (List.mem_cons_of_mem _ hx))
    simp only [List.cons_append, rollbackSteps, List.append_eq]
    rw [hpair]
    simp only [ih', rollbackStep_ok_calls env j hj, List.map_cons, List.cons_append,
      List.append_assoc, List.nil_append]

/-! ### Helper lemmas about the plan builder -/

theorem planDoc_ok_matches (env : Env) (r : Nat) (u : KObj) (it : ApplyItem)
    (r' : Nat) (tr : List Call) (h : planDoc env r u = (.ok it, r', tr)) :
    planItemMatches env u it := by
  dsimp only [planDoc] at h
  split at h
  · exact absurd h (by simp)
  · rename_i m r1 tr1 heqres
    split at h <;> rename_i heqget
    · simp only [Prod.mk.injEq, Except.ok.injEq] at h
      obtain ⟨hit, -, -⟩ := h
      subst hit
      unfold planItemMatches
      refine ⟨?_, ?_, ?_⟩
      · split <;> rfl
      · split <;> rfl
      · have hname : (if env.scopeNamespaced m = true then
            (some (nsChoicePkg u.ns env.cfgNamespace),
             { u with ns := nsChoicePkg u.ns env.cfgNamespace })
          else (none, u)).2.name = u.name := by split <;> rfl
        rw [hname] at heqget
        simp only [heqget]
        refine ⟨?_, ?_, ?_⟩ <;> trivial
    · split at h
      · exact absurd h (by simp)
      · rename_i b heqmar
        simp only [Prod.mk.injEq, Except.ok.injEq] at h
        obtain ⟨hit, -, -⟩ := h
        subst hit
        unfold planItemMatches
        refine ⟨?_, ?_, ?_⟩
        · split <;> rfl
        · split <;> rfl
        · have hname : (if env.scopeNamespaced m = true then
              (some (nsChoicePkg u.ns env.cfgNamespace),
               { u with ns := nsChoicePkg u.ns env.cfgNamespace })
            else (none, u)).2.name = u.name := by split <;> rfl
          rw [hname] at heqget
          simp only [heqget, heqmar]
          refine ⟨?_, ?_, ?_⟩ <;> trivial

theorem planDoc_ok_ns (env : Env) (r : Nat) (u : KObj) (it : ApplyItem)
    (r' : Nat) (tr : List Call) (h : planDoc env r u = (.ok it, r', tr))
    (hsc : env.scopeNamespaced it.drm = true) :
    it.obj.ns = nsChoicePkg u.ns env.cfgNamespace ∧ it.drNs = some it.obj.ns ∧
    it.obj.name = u.name ∧ it.obj.gvk = u.gvk := by
  dsimp only [planDoc] at h
  split at h
  · exact absurd h (by simp)
  · rename_i m r1 tr1 heqres
    by_cases hb : env.scopeNamespaced m = true
    · rw [if_pos hb] at h
      split at h <;> rename_i heqget
      · simp only [Prod.mk.injEq, Except.ok.injEq] at h
        obtain ⟨hit, -, -⟩ := h
        subst hit
        exact ⟨rfl, rfl, rfl, rfl⟩
      · split at h
        · exact absurd h (by simp)
        · rename_i b heqmar
          simp only [Prod.mk.injEq, Except.ok.injEq] at h
          obtain ⟨hit, -, -⟩ := h
          subst hit
          exact ⟨rfl, rfl, rfl, rfl⟩
    · rw [if_neg hb] at h
      split at h <;> rename_i heqget
      · simp only [Prod.mk.injEq, Except.ok.injEq] at h
        obtain ⟨hit, -, -⟩ := h
        subst hit
        exact absurd hsc hb
      · split at h
        · exact absurd h (by simp)
        · rename_i b heqmar
          simp only [Prod.mk.injEq, Except.ok.injEq] at h
          obtain ⟨hit, -, -⟩ := h
          subst hit
          exact absurd hsc hb

theorem prepareAux_forall₂ (env : Env) (docs : List KObj) (r r' : Nat)
    (plan : List ApplyItem) (tr : List Call)
    (h : prepareApplyPlanAux env r docs = (.ok plan, r', tr)) :
    List.Forall₂ (planItemMatches env) docs plan := by
  induction docs generalizing r r' plan tr with
  | nil =>
    simp only [prepareApplyPlanAux, Prod.mk.injEq, Except.ok.injEq] at h
    obtain ⟨hp, -, -⟩ := h
    subst hp
    exact List.Forall₂.nil
  | cons u rest ih =>
    dsimp only [prepareApplyPlanAux] at h
    split at h
    · exact absurd h (by simp)
    · rename_i it1 r1 tr1 heqdoc
      split at h
      · exact absurd h (by simp)
      · rename_i items r2 tr2 heqaux
        simp only [Prod.mk.injEq, Except.ok.injEq] at h
        obtain ⟨hp, -, -⟩ := h
        subst hp
        exact List.Forall₂.cons (planDoc_ok_matches env r u it1 r1 tr1 heqdoc)
          (ih r1 r2 items tr2 heqaux)

/-- C4: for every ordered document list that plans successfully, the
plan has the same length and order as the input, and each item
matches its document: when the live lookup succeeded the item is marked
as existing with the pre-strip `resourceVersion` captured and the
stripped object's serialization as backup; when the live lookup failed
(for any reason) the item is marked as not existing with no backup —
and planning nevertheless continued to produce the remaining items. -/
theorem plan_builder_preserves_order_and_backups (env : Env) (docs : List KObj)
    (plan : List ApplyItem) (tr : List Call)
    (h : prepareApplyPlan env docs = (.ok plan, tr)) :
    plan.length = docs.length ∧ List.Forall₂ (planItemMatches env) docs plan := by
  unfold prepareApplyPlan at h
  simp only [Prod.mk.injEq] at h
  obtain ⟨ha, -⟩ := h
  have haux : prepareApplyPlanAux env 0 docs =
      (.ok plan, (prepareApplyPlanAux env 0 docs).2.1,
       (prepareApplyPlanAux env 0 docs).2.2) := by
    rw [← ha]
  have hf := prepareAux_forall₂ env docs 0 _ plan _ haux
  exact ⟨hf.length_eq.symm, hf⟩

/-- Witness for C4: the concrete two-document plan built by `envW`,
where document `a` exists live and document `b` does not. -/
theorem plan_builder_preserves_order_and_backups_witness :
    planW.length = docsW.length ∧ List.Forall₂ (planItemMatches envW) docsW planW :=
  plan_builder_preserves_order_and_backups envW docsW planW trW rfl

/-- C7: the namespace used for planning is chosen by explicit-manifest
namespace first, then the caller-supplied default namespace, then the
literal `"default"` — the package planner's choice function coincides
with the spec's precedence everywhere, the CLI variant coincides
whenever a caller namespace setting is present (the CLI constructor
always supplies one), and the plan builder writes the chosen namespace
back onto the desired object and scopes the endpoint to it. -/
theorem namespace_precedence_resolution :
    (∀ e cfg, nsChoicePkg e cfg = specChooseNamespace e cfg) ∧
    (∀ e s, nsChoiceCmd e (some s) = specChooseNamespace e (some s)) ∧
    (∀ env r u it r' tr, planDoc env r u = (.ok it, r', tr) →
       env.scopeNamespaced it.drm = true →
       it.obj.ns = nsChoicePkg u.ns env.cfgNamespace ∧ it.drNs = some it.obj.ns) := by
  refine ⟨fun e cfg => rfl, fun e s => rfl, ?_⟩
  intro env r u it r' tr h hsc
  obtain ⟨h1, h2, -, -⟩ := planDoc_ok_ns env r u it r' tr h hsc
  exact ⟨h1, h2⟩

/-- Witness for C7: concrete instances — the empty caller namespace
falls back to `"default"`, an explicit caller namespace is used, and
the planner wrote `objB`'s explicit namespace back onto the item. -/
theorem namespace_precedence_resolution_witness :
    nsChoicePkg "" (some "") = specChooseNamespace "" (some "") ∧
    nsChoiceCmd "" (some "ns2") = specChooseNamespace "" (some "ns2") ∧
    (itemN.obj.ns = nsChoicePkg objB.ns envW.cfgNamespace ∧
     itemN.drNs = some itemN.obj.ns) :=
  ⟨namespace_precedence_resolution.1 "" (some ""),
   namespace_precedence_resolution.2.1 "" "ns2",
   namespace_precedence_resolution.2.2 envW 0 objB itemN 0
     [Call.mapping 0 objB.gvk, Call.get "rm" (some "ns1") "b"] rfl rfl⟩

/-! ### Planning issues no mutations -/

theorem resolveWithRetry_no_mutation (env : Env) (r : Nat) (gvk : String) :
    ∀ c ∈ (resolveWithRetry env r gvk).2.2, c.isMutation = false := by
  cases h1 : env.restMapping r gvk with
  | ok m =>
    have hs : resolveWithRetry env r gvk = (.ok m, r, [Call.mapping r gvk]) := by
      simp only [resolveWithRetry, h1]
    rw [hs]
    intro c hc
    simp only [List.mem_singleton] at hc
    subst hc
    rfl
  | error e =>
    cases h2 : env.restMapping (r + 1) gvk with
    | ok m =>
      have hs : resolveWithRetry env r gvk =
          (.ok m, r + 1,
           [Call.mapping r gvk, Call.reset, Call.mapping (r + 1) gvk]) := by
        simp only [resolveWithRetry, h1, h2]
      rw [hs]
      intro c hc
      rcases List.mem_cons.mp hc with rfl | hc2
      · rfl
      rcases List.mem_cons.mp hc2 with rfl | hc3
      · rfl
      simp only [List.mem_singleton] at hc3
      subst hc3
      rfl
    | error e2 =>
      have hs : resolveWithRetry env r gvk =
          (.error ("could not map GVK " ++ gvk ++ ": " ++ e2), r + 1,
           [Call.mapping r gvk, Call.reset, Call.mapping (r + 1) gvk]) := by
        simp only [resolveWithRetry, h1, h2]
      rw [hs]
      intro c hc
      rcases List.mem_cons.mp hc with rfl | hc2
      · rfl
      rcases List.mem_cons.mp hc2 with rfl | hc3
      · rfl
      simp only [List.mem_singleton] at hc3
      subst hc3
      rfl

theorem planDoc_no_mutation (env : Env) (r : Nat) (u : KObj) :
    ∀ c ∈ (planDoc env r u).2.2, c.isMutation = false := by
  dsimp only [planDoc]
  split
  · rename_i e r1 tr1 heqres
    intro c hc
    have hno := resolveWithRetry_no_mutation env r u.gvk
    rw [heqres] at hno
    exact hno c hc
  · rename_i m r1 tr1 heqres
    have hno := resolveWithRetry_no_mutation env r u.gvk
    rw [heqres] at hno
    split <;> rename_i heqget
    · intro c hc
      rcases List.mem_append.mp hc with hc1 | hc2
      · exact hno c hc1
      · simp only [List.mem_singleton] at hc2
        subst hc2
        rfl
    · split
      · intro c hc
        rcases List.mem_append.mp hc with hc1 | hc2
        · exact hno c hc1
        · simp only [List.mem_singleton] at hc2
          subst hc2
          rfl
      · intro c hc
        rcases List.mem_append.mp hc with hc1 | hc2
        · exact hno c hc1
        · simp only [List.mem_singleton] at hc2
          subst hc2
          rfl

theorem prepareAux_no_mutation (env : Env) (docs : List KObj) (r : Nat) :
    ∀ c ∈ (prepareApplyPlanAux env r docs).2.2, c.isMutation = false := by
  induction docs generalizing r with
  | nil => intro c hc; simp [prepareApplyPlanAux] at hc
  | cons u rest ih =>
    dsimp only [prepareApplyPlanAux]
    split
    · rename_i e r1 tr1 heqdoc
      intro c hc
      have hno := planDoc_no_mutation env r u
      rw [heqdoc] at hno
      exact hno c hc
    · rename_i it1 r1 tr1 heqdoc
      have hno := planDoc_no_mutation env r u
      rw [heqdoc] at hno
      split
      · rename_i e2 r2 tr2 heqaux
        intro c hc
        rcases List.mem_append.mp hc with hc1 | hc2
        · exact hno c hc1
        · have hr := ih r1
          rw [heqaux] at hr
          exact hr c hc2
      · rename_i items r2 tr2 heqaux
        intro c hc
        rcases List.mem_append.mp hc with hc1 | hc2
        · exact hno c hc1
        · have hr := ih r1
          rw [heqaux] at hr
          exact hr c hc2

theorem prepareAux_append_ok (env : Env) (pre rest : List KObj) (r r1 : Nat)
    (items : List ApplyItem) (tr : List Call)
    (h : prepareApplyPlanAux env r pre = (.ok items, r1, tr)) :
    prepareApplyPlanAux env r (pre ++ rest) =
      (match prepareApplyPlanAux env r1 rest with
       | (.error e, r2, tr2) => (.error e, r2, tr ++ tr2)
       | (.ok items2, r2, tr2) => (.ok (items ++ items2), r2, tr ++ tr2)) := by
  induction pre generalizing r r1 items tr with
  | nil =>
    simp only [prepareApplyPlanAux, Prod.mk.injEq, Except.ok.injEq] at h
    obtain ⟨hi, hr, ht⟩ := h
    subst hi
    subst hr
    subst ht
    simp only [List.nil_append]
    rcases haux : prepareApplyPlanAux env r rest with ⟨res2, r3, tr3⟩
    cases res2 <;> simp
  | cons u pre ih =>
    rw [List.cons_append]
    dsimp only [prepareApplyPlanAux] at h
    split at h
    · exact absurd h (by simp)
    · rename_i it1 rd trd heqdoc
      split at h
      · exact absurd h (by simp)
      · rename_i items0 r2x tr2x heqaux
        simp only [Prod.mk.injEq, Except.ok.injEq] at h
        obtain ⟨hi, hr, ht⟩ := h
        subst hi
        subst hr
        subst ht
        have hrec := ih rd r2x items0 tr2x heqaux
        dsimp only [prepareApplyPlanAux]
        simp only [heqdoc, hrec]
        rcases haux2 : prepareApplyPlanAux env r2x rest with ⟨res2, r3, tr3⟩
        cases res2 <;> simp [List.append_assoc]

/-- C5: when kind/version resolution of a document fails, the planner
resets the mapper cache and retries exactly once (the discovery trace
is mapping, reset, mapping — nothing more); if the retry also fails,
the whole planning run aborts with the wrapped mapping error, the run
returns that error, and the accumulated trace contains no mutating
call whatsoever — so no rollback happens on this path. -/
theorem resolver_double_failure_aborts_planning
    (env : Env) (docs : List (Except String (Option KObj))) (us : List KObj)
    (pre post : List KObj) (u : KObj) (items : List ApplyItem)
    (resets : Nat) (trPre : List Call) (e1 e2 : String)
    (hread : readManifests docs = .ok us)
    (hus : us = pre ++ u :: post)
    (hpre : prepareApplyPlanAux env 0 pre = (.ok items, resets, trPre))
    (h1 : env.restMapping resets u.gvk = .error e1)
    (h2 : env.restMapping (resets + 1) u.gvk = .error e2) :
    prepareApplyPlan env us =
      (.error ("could not map GVK " ++ u.gvk ++ ": " ++ e2),
       trPre ++ [Call.mapping resets u.gvk, Call.reset,
                 Call.mapping (resets + 1) u.gvk]) ∧
    runApplyModel env docs =
      (.failure ("could not map GVK " ++ u.gvk ++ ": " ++ e2),
       trPre ++ [Call.mapping resets u.gvk, Call.reset,
                 Call.mapping (resets + 1) u.gvk]) ∧
    ∀ c ∈ trPre ++ [Call.mapping resets u.gvk, Call.reset,
                    Call.mapping (resets + 1) u.gvk], c.isMutation = false := by
  have hres : resolveWithRetry env resets u.gvk =
      (.error ("could not map GVK " ++ u.gvk ++ ": " ++ e2), resets + 1,
       [Call.mapping resets u.gvk, Call.reset, Call.mapping (resets + 1) u.gvk]) := by
    simp only [resolveWithRetry, h1, h2]
  have hdoc : planDoc env resets u =
      (.error ("could not map GVK " ++ u.gvk ++ ": " ++ e2), resets + 1,
       [Call.mapping resets u.gvk, Call.reset, Call.mapping (resets + 1) u.gvk]) := by
    dsimp only [planDoc]
    rw [hres]
  have hcons : prepareApplyPlanAux env resets (u :: post) =
      (.error ("could not map GVK " ++ u.gvk ++ ": " ++ e2), resets + 1,
       [Call.mapping resets u.gvk, Call.reset, Call.mapping (resets + 1) u.gvk]) := by
    dsimp only [prepareApplyPlanAux]
    rw [hdoc]
  have hplanerr : prepareApplyPlanAux env 0 (pre ++ u :: post) =
      (.error ("could not map GVK " ++ u.gvk ++ ": " ++ e2), resets + 1,
       trPre ++ [Call.mapping resets u.gvk, Call.reset,
                 Call.mapping (resets + 1) u.gvk]) := by
    rw [prepareAux_append_ok env pre (u :: post) 0 resets items trPre hpre, hcons]
  have hplan : prepareApplyPlan env us =
      (.error ("could not map GVK " ++ u.gvk ++ ": " ++ e2),
       trPre ++ [Call.mapping resets u.gvk, Call.reset,
                 Call.mapping (resets + 1) u.gvk]) := by
    rw [hus]
    unfold prepareApplyPlan
    rw [hplanerr]
  refine ⟨hplan, ?_, ?_⟩
  · simp only [runApplyModel, hread, hplan]
  · intro c hc
    rcases List.mem_append.mp hc with hc1 | hc2
    · have hno := prepareAux_no_mutation env pre 0
      rw [hpre] at hno
      exact hno c hc1
    · rcases List.mem_cons.mp hc2 with rfl | hc3
      · rfl
      rcases List.mem_cons.mp hc3 with rfl | hc4
      · rfl
      simp only [List.mem_singleton] at hc4
      subst hc4
      rfl

/-- Witness for C5: a one-document stream whose kind never resolves —
planning aborts with the wrapped error and the run performs no
mutation. -/
theorem resolver_double_failure_aborts_planning_witness :
    prepareApplyPlan envM [objA] =
      (.error ("could not map GVK " ++ objA.gvk ++ ": " ++ "no matches"),
       [] ++ [Call.mapping 0 objA.gvk, Call.reset, Call.mapping (0 + 1) objA.gvk]) ∧
    runApplyModel envM docs1 =
      (.failure ("could not map GVK " ++ objA.gvk ++ ": " ++ "no matches"),
       [] ++ [Call.mapping 0 objA.gvk, Call.reset, Call.mapping (0 + 1) objA.gvk]) := by
  have h := resolver_double_failure_aborts_planning envM docs1 [objA] [] [] objA []
    0 [] "no matches" "no matches" rfl rfl rfl rfl rfl
  exact ⟨h.1, h.2.1⟩

/-- C1 (amended): when applying any plan item fails — either
serializing the desired object or the remote patch call rejecting it —
the Applier issues no further patches, runs the rollback procedure over
the entire plan (including the items it never reached), and returns the
rollback's outcome: the rollback's own error when rollback fails, or
process exit 1 when rollback completes. The triggering error itself is
discarded, not returned (see the counterexample). -/
theorem apply_failure_rolls_back_entire_plan (env : Env)
    (pre post : List ApplyItem) (it : ApplyItem) (e : String)
    (hpre : ∀ j ∈ pre, (applyStep env j).1 = .ok ())
    (hfail : (applyStep env it).1 = .error e) :
    applyPlanned env (pre ++ it :: post) =
      (some (rollbackSteps env (pre ++ it :: post)).1,
       pre.map (patchCallOf env) ++ (applyStep env it).2 ++
         (rollbackSteps env (pre ++ it :: post)).2) :=
  applyLoop_failure env (pre ++ it :: post) pre post it e hpre hfail

/-- Counterexample to C1 as stated: in `envC1` the patch is rejected
with `patch rejected`, but the Applier returns the rollback's error
`delete refused` — not the error that triggered the failure. -/
theorem apply_failure_returns_rollback_error_not_trigger :
    (applyStep envC1 itemN).1 = Except.error "patch rejected" ∧
    (applyPlanned envC1 [itemN]).1 = some (RollbackOutcome.failed "delete refused") ∧
    RollbackOutcome.failed "delete refused" ≠ RollbackOutcome.failed "patch rejected" :=
  ⟨rfl, rfl, by decide⟩

/-- Witness for the amended C1 at a concrete one-item plan whose patch
is rejected and whose rollback delete fails. -/
theorem apply_failure_rolls_back_entire_plan_witness :
    applyPlanned envC1 ([] ++ itemN :: []) =
      (some (rollbackSteps envC1 ([] ++ itemN :: [])).1,
       ([] : List ApplyItem).map (patchCallOf envC1) ++ (applyStep envC1 itemN).2 ++
         (rollbackSteps envC1 ([] ++ itemN :: [])).2) :=
  apply_failure_rolls_back_entire_plan envC1 [] [] itemN "patch rejected"
    (fun j hj => absurd hj (List.not_mem_nil j)) rfl

/-- C8 (amended): at the run level, once some apply step fails, the
run's outcome is exactly the rollback's outcome: a failed rollback is
surfaced as a returned error, but a completed rollback terminates the
hosting process with exit code 1 — also when the engine is invoked as a
library through the run entry point. -/
theorem run_failure_surfaces_rollback_outcome (env : Env)
    (docs : List (Except String (Option KObj))) (us : List KObj)
    (plan pre post : List ApplyItem) (it : ApplyItem) (trP : List Call) (e : String)
    (hread : readManifests docs = .ok us)
    (hplan : prepareApplyPlan env us = (.ok plan, trP))
    (hsplit : plan = pre ++ it :: post)
    (hpre : ∀ j ∈ pre, (applyStep env j).1 = .ok ())
    (hfail : (applyStep env it).1 = .error e) :
    (runApplyModel env docs).1 = rollbackRunOutcome (rollbackSteps env plan).1 := by
  have happ : applyPlanned env plan =
      (some (rollbackSteps env plan).1,
       pre.map (patchCallOf env) ++ (applyStep env it).2 ++
         (rollbackSteps env plan).2) := by
    rw [hsplit]
    exact applyLoop_failure env (pre ++ it :: post) pre post it e hpre hfail
  simp only [runApplyModel, hread, hplan, happ]

/-- Counterexample to C8 as stated: with `envC8` the patch is rejected
and the rollback completes, so the library-mode run terminates the
hosting process (exit code 1) instead of returning an error value. -/
theorem completed_rollback_exits_process_in_library_run :
    (runApplyModel envC8 docs1).1 = RunOutcome.exited 1 := rfl

/-- Witness for the amended C8 at the concrete run whose single patch
is rejected and whose rollback completes. -/
theorem run_failure_surfaces_rollback_outcome_witness :
    (runApplyModel envC8 docs1).1 = rollbackRunOutcome (rollbackSteps envC8 [itemA0]).1 :=
  run_failure_surfaces_rollback_outcome envC8 docs1 [objA] [itemA0] [] [] itemA0
    [Call.mapping 0 objA.gvk, Call.get "rm" (some "default") "a"] "admission denied"
    rfl rfl rfl (fun j hj => absurd hj (List.not_mem_nil j)) rfl

theorem readManifests_all_empty : ∀ (docs : List (Except String (Option KObj))),
    (∀ d ∈ docs, d = Except.ok none) → readManifests docs = .ok [] := by
  intro docs
  induction docs with
  | nil => intro _; rfl
  | cons d rest ih =>
    intro h
    have hd := h d (List.mem_cons_self d rest)
    subst hd
    dsimp only [readManifests]
    exact ih (fun x hx => h x (List.mem_cons_of_mem _ hx))

/-- C9: a manifest stream consisting only of empty/separator documents
yields a run that tracks zero resources, issues zero remote calls (in
particular zero mutations), and succeeds immediately with the
`no trackable resources` wait outcome. -/
theorem empty_manifest_stream_noop_success (env : Env)
    (docs : List (Except String (Option KObj)))
    (h : ∀ d ∈ docs, d = Except.ok none) :
    runApplyModel env docs = (.success .noTrackable, []) := by
  have hread := readManifests_all_empty docs h
  simp only [runApplyModel, hread]
  rfl

/-- Witness for C9: a concrete stream of two empty documents. -/
theorem empty_manifest_stream_noop_success_witness :
    runApplyModel envW docsE = (.success .noTrackable, []) :=
  empty_manifest_stream_noop_success envW docsE (fun d hd => by
    rcases List.mem_cons.mp hd with rfl | hd2
    · rfl
    rcases List.mem_cons.mp hd2 with rfl | hd3
    · rfl
    exact absurd hd3 (List.not_mem_nil d))

/-- Witness for C2: concrete rollback of a two-item plan — a
full-overwrite update with the deserialized backup for the item that
existed, then a delete for the newly created one, in plan order. -/
theorem rollback_same_order_and_actions_witness :
    rollbackSteps envW planW = (.completedExit, planW.map (restoreCall envW)) := by
  have hmem : ∀ it ∈ planW, (rollbackStep envW it).1 = .ok () := by
    intro it hit
    rcases List.mem_cons.mp hit with rfl | hit2
    · rfl
    rcases List.mem_cons.mp hit2 with rfl | hit3
    · rfl
    exact absurd hit3 (List.not_mem_nil it)
  exact rollback_same_order_and_actions envW planW hmem

/-- Witness for C3: concrete rollback whose second item's delete is
denied — the error is returned verbatim and the third item is never
visited. -/
theorem rollback_first_failure_is_fatal_witness :
    rollbackSteps envRB3 ([itemE] ++ itemN :: [itemE]) =
      (.failed "delete denied",
       [itemE].map (restoreCall envRB3) ++ (rollbackStep envRB3 itemN).2) := by
  have hpre : ∀ j ∈ [itemE], (rollbackStep envRB3 j).1 = .ok () := by
    intro j hj
    rcases List.mem_cons.mp hj with rfl | hj2
    · rfl
    exact absurd hj2 (List.not_mem_nil j)
  exact rollback_first_failure_is_fatal envRB3 [itemE] [itemE] itemN "delete denied"
    hpre rfl

/-! ### Helper lemmas for the deadline error of the wait stage -/

theorem waitDeadlineError_eq_filter :
    ∀ (resources : List String) (st : String → Option KStatus) (ctxE : String),
    (∀ id ∈ resources, (st id).isSome = true) →
    waitDeadlineError resources st ctxE =
      (resources.filter
        (fun id => !((st id).getD KStatus.unknown == KStatus.current))).map
        (fun id => WaitErrPart.notReady id ((st id).getD KStatus.unknown)) ++
      [WaitErrPart.ctxErr ctxE] := by
  intro resources st ctxE
  induction resources with
  | nil => intro _; rfl
  | cons id rest ih =>
    intro h
    have hid := h id (List.mem_cons_self id rest)
    obtain ⟨s, hs⟩ := Option.isSome_iff_exists.mp hid
    have ih' := ih (fun x hx => h x (List.mem_cons_of_mem _ hx))
    simp only [waitDeadlineError] at ih' ⊢
    rw [List.filterMap_cons, List.filter_cons]
    simp only [hs, Option.getD_some]
    by_cases hcur : s = KStatus.current
    · subst hcur
      have hb : (KStatus.current == KStatus.current) = true := rfl
      rw [hb]
      rw [if_pos (show (true : Bool) = true from rfl),
          if_neg (show ¬((!true) = true) from by decide)]
      exact ih'
    · have hb : (s == KStatus.current) = false := by simp [hcur]
      rw [hb]
      rw [if_neg (show ¬((false : Bool) = true) from by decide),
          if_pos (show (!false) = true from by decide)]
      simp only [List.map_cons]
      rw [hs, Option.getD_some, List.cons_append, List.cons_append]
      exact congrArg (List.cons (WaitErrPart.notReady id s)) ih'

theorem waitDeadlineError_mem (resources : List String)
    (st : String → Option KStatus) (ctxE : String) (id : String) (s : KStatus) :
    WaitErrPart.notReady id s ∈ waitDeadlineError resources st ctxE ↔
      id ∈ resources ∧ st id = some s ∧ s ≠ KStatus.current := by
  unfold waitDeadlineError
  simp only [List.mem_append, List.mem_filterMap, List.mem_singleton]
  constructor
  · rintro (⟨x, hx, hfx⟩ | hctx)
    · cases hstx : st x with
      | none => rw [hstx] at hfx; simp at hfx
      | some sx =>
        rw [hstx] at hfx
        by_cases hc : sx = KStatus.current
        · subst hc; simp at hfx
        · have hb : (sx == KStatus.current) = false := by simp [hc]
          simp only [hb, Bool.false_eq_true, if_false, Option.some.injEq] at hfx
          have hinj := hfx
          simp only [WaitErrPart.notReady.injEq] at hinj
          obtain ⟨h1, h2⟩ := hinj
          subst h1
          subst h2
          exact ⟨hx, hstx, hc⟩
    · simp at hctx
  · rintro ⟨hid, hst, hne⟩
    left
    refine ⟨id, hid, ?_⟩
    have hb : (s == KStatus.current) = false := by simp [hne]
    simp [hst, hb]

/-- C6: when the wait unblocks because the deadline expired, the joined
error enumerates exactly the tracked resources whose recorded state is
not `Current` — one not-ready fact per such resource, in tracking
order — followed by the context's own deadline error. Stated under the
status collector's guarantee that every tracked identity has a recorded
(possibly `Unknown`) status. -/
theorem wait_deadline_error_enumerates_not_ready
    (resources : List String) (st : String → Option KStatus) (ctxE : String)
    (h : ∀ id ∈ resources, (st id).isSome = true) :
    waitDeadlineError resources st ctxE =
      (resources.filter
        (fun id => !((st id).getD KStatus.unknown == KStatus.current))).map
        (fun id => WaitErrPart.notReady id ((st id).getD KStatus.unknown)) ++
      [WaitErrPart.ctxErr ctxE] ∧
    (∀ id s, WaitErrPart.notReady id s ∈ waitDeadlineError resources st ctxE ↔
       id ∈ resources ∧ st id = some s ∧ s ≠ KStatus.current) ∧
    WaitErrPart.ctxErr ctxE ∈ waitDeadlineError resources st ctxE := by
  refine ⟨waitDeadlineError_eq_filter resources st ctxE h,
          fun id s => waitDeadlineError_mem resources st ctxE id s, ?_⟩
  unfold waitDeadlineError
  simp

/-- Witness for C6: three tracked resources of which `a` is current,
`b` is in progress and `c` is unknown — the deadline error lists
exactly `b` and `c` plus the context error. -/
theorem wait_deadline_error_enumerates_not_ready_witness :
    waitDeadlineError ["a", "b", "c"] stW "context deadline exceeded" =
      [WaitErrPart.notReady "b" KStatus.inProgress,
       WaitErrPart.notReady "c" KStatus.unknown,
       WaitErrPart.ctxErr "context deadline exceeded"] := by
  have h := wait_deadline_error_enumerates_not_ready ["a", "b", "c"] stW
    "context deadline exceeded" (by decide)
  rw [h.1]
  decide

end Katomik
